import Mathlib

/-!
Shallow embedding of `picorand` (`src/lib.rs`), a `no_std` WyRand-based PRNG
with a Lemire-style range reducer and width-polymorphic wrappers.

Machine integers are modelled as `Nat` with explicit `% 2^64` / `% 2^128`
where the Rust code wraps; the `i64` arithmetic in the threshold computation
of `rand_range` is modelled over `Int` through explicit bit-pattern
conversions.  Rust operations that can panic (`clamp` with `min > max`) are
modelled with `Option`: `none` is a panic.  The rejection loop of
`rand_range` is modelled with explicit fuel; `none` also covers fuel
exhaustion, and termination theorems show one unit of fuel always suffices.
Integer overflow in release mode wraps (`-(max as i64)` is modelled as the
wrapping two's-complement negation).
-/

/-- The fixed odd 64-bit WyRand constant `0xE7037ED1A0B428DB`. -/
def wyconst : Nat := 0xE7037ED1A0B428DB

/-- State of a `WyRand` PRNG instance: the single 64-bit `seed` counter. -/
structure WyRand where
  seed : Nat
deriving DecidableEq, Repr

/-- Embeds `WyRand::new`: stores the seed unchanged. -/
def WyRand.new (seed : Nat) : WyRand := ⟨seed⟩

/-- Embeds `WyRand::rand`: wrapping-add the constant to the counter, take the
128-bit wrapping product of the new counter with the counter XOR the
constant, and fold high 64 bits XOR low 64 bits, truncated to `u64`.
Returns the drawn value together with the successor state. -/
def WyRand.rand (g : WyRand) : Nat × WyRand :=
  let s := (g.seed + wyconst) % 2 ^ 64
  let x := (s * (s ^^^ wyconst)) % 2 ^ 128
  (((x >>> 64) ^^^ x) % 2 ^ 64, ⟨s⟩)

/-- Reinterprets the low 64 bits of a `Nat` as a signed `i64` value
(two's complement), as in Rust's `as i64` cast from `usize`. -/
def toI64 (n : Nat) : Int :=
  if n % 2 ^ 64 < 2 ^ 63 then (n % 2 ^ 64 : Nat) else (n % 2 ^ 64 : Nat) - 2 ^ 64

/-- Reinterprets a signed `i64` value as its unsigned 64-bit bit pattern,
as in Rust's `as u64` cast from `i64`. -/
def toU64 (i : Int) : Nat := (i % (2 ^ 64 : Nat)).toNat

/-- Embeds Rust's `i64::checked_rem`: `none` on zero divisor and on the
single overflowing case `i64::MIN % -1`, otherwise truncated remainder. -/
def checked_rem (a b : Int) : Option Int :=
  if b = 0 then none
  else if a = -(2 ^ 63) ∧ b = -1 then none
  else some (Int.tmod a b)

/-- Embeds line 61 of `lib.rs`, the threshold computation of `rand_range`:
`(-(max as i64)).checked_rem(max as i64).unwrap_or(0) as u64`.  The unary
negation is the wrapping (release-mode) two's-complement negation of the
bit pattern. -/
def threshold (maxv : Nat) : Nat :=
  toU64 ((checked_rem (toI64 ((2 ^ 64 - maxv % 2 ^ 64) % 2 ^ 64)) (toI64 maxv)).getD 0)

/-- The 128-bit wrapping product `m = (x as u128).wrapping_mul(max as u128)`
formed in each iteration of the `rand_range` loop. -/
def rawM (x maxv : Nat) : Nat := (x * maxv) % 2 ^ 128

/-- Embeds the `while` loop of `rand_range` with explicit fuel: draw `x`,
form `m = x * max` (128-bit), redraw while its low 64 bits `l` satisfy
`l < t`.  Returns the accepted `m` and the post-loop generator state;
`none` means the fuel ran out before the loop exited. -/
def rand_range_loop (fuel : Nat) (g : WyRand) (maxv : Nat) : Option (Nat × WyRand) :=
  match fuel with
  | 0 => none
  | f + 1 =>
    let x := (WyRand.rand g).1
    let g' := (WyRand.rand g).2
    if rawM x maxv % 2 ^ 64 < threshold maxv then rand_range_loop f g' maxv
    else some (rawM x maxv, g')

/-- Embeds Rust's `u64::clamp(lo, hi)`: panics (`none`) when `lo > hi`,
otherwise clamps into `[lo, hi]`. -/
def u64_clamp (v lo hi : Nat) : Option Nat :=
  if lo ≤ hi then some (if v < lo then lo else if hi < v then hi else v) else none

/-- Embeds `WyRand::rand_range(min, max)` (lines 60-73 of `lib.rs`): run the
rejection loop, then `((m >> 64) as u64).clamp(min, max)`.  `none` is a
panic (from `clamp`) or fuel exhaustion. -/
def WyRand.rand_range (fuel : Nat) (g : WyRand) (minv maxv : Nat) :
    Option (Nat × WyRand) :=
  (rand_range_loop fuel g maxv).bind fun p =>
    (u64_clamp ((p.1 >>> 64) % 2 ^ 64) minv maxv).map fun r => (r, p.2)

/-- Embeds `RNG::<WyRand, T>::generate_range(min, max)` for a `w`-bit target
type `T` (line 101-110 of `lib.rs`): the `u64` result of `rand_range` is
converted through `u128` (infallible) and narrowed to `T` with
`try_into().unwrap_or_default()` — the fallback yields `T::default() = 0`
when the value does not fit in `w` bits. -/
def generate_range_w (w fuel : Nat) (g : WyRand) (minv maxv : Nat) :
    Option (Nat × WyRand) :=
  (WyRand.rand_range fuel g minv maxv).map fun p =>
    (if p.1 < 2 ^ w then p.1 else 0, p.2)

/-- Embeds `RNG::<WyRand, T>::generate()` for a `w`-bit target type `T`
(the `ImplPicoRandCommon` macro, lines 130-132): calls
`rand_range(T::MIN as usize, T::MAX as usize)` — that is, `min = 0`,
`max = 2^w - 1` — and truncates the result to `T` with an `as` cast. -/
def generate_w (w fuel : Nat) (g : WyRand) : Option (Nat × WyRand) :=
  (WyRand.rand_range fuel g 0 (2 ^ w - 1)).map fun p => (p.1 % 2 ^ w, p.2)

/-- Sequence of the first `n` raw draws from a generator state. -/
def randSeq (g : WyRand) : Nat → List Nat
  | 0 => []
  | n + 1 => (WyRand.rand g).1 :: randSeq (WyRand.rand g).2 n

/-- Sequence of bounded draws for a list of `(min, max)` bound arguments;
`none` if any call panics. -/
def rangeSeq (fuel : Nat) (g : WyRand) : List (Nat × Nat) → Option (List Nat)
  | [] => some []
  | (minv, maxv) :: args =>
    (WyRand.rand_range fuel g minv maxv).bind fun p =>
      (rangeSeq fuel p.2 args).map fun l => p.1 :: l

/-- Sequence of `n` successive `generate_range` results at width `w`;
`none` if any call panics. -/
def genRangeSeqW (w fuel : Nat) (g : WyRand) (minv maxv : Nat) :
    Nat → Option (List Nat)
  | 0 => some []
  | n + 1 =>
    (generate_range_w w fuel g minv maxv).bind fun p =>
      (genRangeSeqW w fuel p.2 minv maxv n).map fun l => p.1 :: l

/-- Boolean check for the concrete scenario of the spec: seed `0xDEADBEEF`,
width 8, `generate_range(0xC0, 0xDE)` called 100 times, every result `r`
satisfies `0xC0 ≤ r < 0xDE` and no call panics. -/
def c1ConcreteCheck : Bool :=
  match genRangeSeqW 8 1 (WyRand.new 0xDEADBEEF) 0xC0 0xDE 100 with
  | none => false
  | some l => l.length == 100 && l.all fun r => 0xC0 ≤ r && r < 0xDE

/-- Number of raw draws `x` in the full 64-bit domain that the loop body
accepts (`l ≥ t`) and whose clamped high word equals `v` — the count the
uniformity claim is about. -/
def acceptCount (minv maxv v : Nat) : Nat :=
  ((Finset.range (2 ^ 64)).filter fun x =>
    threshold maxv ≤ rawM x maxv % 2 ^ 64 ∧
      u64_clamp ((rawM x maxv >>> 64) % 2 ^ 64) minv maxv = some v).card

/-! ### Helper lemmas -/

lemma toI64_negPattern (n : Nat) (h : n % 2 ^ 64 ≠ 2 ^ 63) :
    toI64 ((2 ^ 64 - n % 2 ^ 64) % 2 ^ 64) = -(toI64 n) := by
  unfold toI64
  split_ifs <;> push_cast <;> omega

lemma threshold_eq_zero (maxv : Nat) : threshold maxv = 0 := by
  unfold threshold
  by_cases h0 : toI64 maxv = 0
  · simp [checked_rem, toU64, h0]
  · by_cases hmin : maxv % 2 ^ 64 = 2 ^ 63
    · have ha : toI64 ((2 ^ 64 - maxv % 2 ^ 64) % 2 ^ 64) = -(2 ^ 63) := by
        rw [hmin]; unfold toI64; norm_num
      have hb : toI64 maxv = -(2 ^ 63) := by
        unfold toI64; rw [hmin]; norm_num
      rw [ha, hb]
      simp [checked_rem, toU64]
    · rw [toI64_negPattern maxv hmin]
      have hcond : ¬(-(toI64 maxv) = -(2 ^ 63) ∧ toI64 maxv = -1) := by
        rintro ⟨hx, hy⟩
        rw [hy] at hx
        norm_num at hx
      unfold checked_rem
      rw [if_neg h0, if_neg hcond]
      simp [toU64]

lemma rand_range_loop_succ (f : Nat) (g : WyRand) (maxv : Nat) :
    rand_range_loop (f + 1) g maxv =
      some (rawM (WyRand.rand g).1 maxv, (WyRand.rand g).2) := by
  unfold rand_range_loop
  rw [threshold_eq_zero]
  simp

lemma rand_range_loop_of_pos (f : Nat) (hf : 0 < f) (g : WyRand) (maxv : Nat) :
    rand_range_loop f g maxv =
      some (rawM (WyRand.rand g).1 maxv, (WyRand.rand g).2) := by
  cases f with
  | zero => omega
  | succ n => exact rand_range_loop_succ n g maxv

lemma rand_fst_lt (g : WyRand) : (WyRand.rand g).1 < 2 ^ 64 := by
  simp only [WyRand.rand]
  exact Nat.mod_lt _ (by norm_num)

lemma rawM_lt (x maxv : Nat) : rawM x maxv < 2 ^ 128 :=
  Nat.mod_lt _ (by norm_num)

lemma high_mod_eq {p : Nat} (hp : p < 2 ^ 128) : (p >>> 64) % 2 ^ 64 = p >>> 64 := by
  apply Nat.mod_eq_of_lt
  rw [Nat.shiftRight_eq_div_pow]
  exact (Nat.div_lt_iff_lt_mul (by norm_num)).mpr (by norm_num at hp ⊢; omega)

lemma high_lt_maxv {x maxv : Nat} (hx : x < 2 ^ 64) (hpos : 0 < maxv) :
    rawM x maxv >>> 64 < maxv := by
  have hprod : x * maxv < 2 ^ 64 * maxv := by
    exact Nat.mul_lt_mul_of_lt_of_le hx (le_refl maxv) hpos
  have hsmall : x * maxv < 2 ^ 128 ∨ maxv ≥ 2 ^ 64 := by
    by_cases h : maxv < 2 ^ 64
    · left
      calc x * maxv < 2 ^ 64 * maxv := hprod
        _ ≤ 2 ^ 64 * 2 ^ 64 := Nat.mul_le_mul_left _ (le_of_lt h)
        _ = 2 ^ 128 := by norm_num
    · right; omega
  rcases hsmall with h | h
  · rw [rawM, Nat.mod_eq_of_lt h, Nat.shiftRight_eq_div_pow]
    rw [Nat.div_lt_iff_lt_mul (by norm_num)]
    calc x * maxv < 2 ^ 64 * maxv := hprod
      _ = maxv * 2 ^ 64 := Nat.mul_comm _ _
  · have h1 : rawM x maxv >>> 64 < 2 ^ 64 := by
      have hm := rawM_lt x maxv
      rw [Nat.shiftRight_eq_div_pow]
      exact (Nat.div_lt_iff_lt_mul (by norm_num)).mpr (by norm_num at hm ⊢; omega)
    omega

lemma rand_range_fuel_eq (f : Nat) (hf : 0 < f) (g : WyRand) (minv maxv : Nat) :
    WyRand.rand_range f g minv maxv =
      (u64_clamp (rawM (WyRand.rand g).1 maxv >>> 64) minv maxv).map
        fun r => (r, (WyRand.rand g).2) := by
  unfold WyRand.rand_range
  rw [rand_range_loop_of_pos f hf g maxv]
  simp only [Option.some_bind, high_mod_eq (rawM_lt (WyRand.rand g).1 maxv)]

lemma rand_range_containment (g : WyRand) {minv maxv : Nat} (hmm : minv < maxv) :
    ∃ r g', WyRand.rand_range 1 g minv maxv = some (r, g') ∧ minv ≤ r ∧ r < maxv := by
  have hpos : 0 < maxv := Nat.lt_of_le_of_lt (Nat.zero_le _) hmm
  have hh : rawM (WyRand.rand g).1 maxv >>> 64 < maxv := high_lt_maxv (rand_fst_lt g) hpos
  rw [rand_range_fuel_eq 1 (by norm_num) g minv maxv]
  unfold u64_clamp
  rw [if_pos (Nat.le_of_lt hmm)]
  refine ⟨_, (WyRand.rand g).2, rfl, ?_, ?_⟩ <;> split_ifs <;> omega

lemma xor_mod_two_pow (a b n : Nat) :
    (a ^^^ b) % 2 ^ n = a % 2 ^ n ^^^ b % 2 ^ n := by
  apply Nat.eq_of_testBit_eq
  intro i
  simp only [Nat.testBit_mod_two_pow, Nat.testBit_xor]
  by_cases h : i < n <;> simp [h]

/-! ### Claim theorems -/

set_option maxRecDepth 40000 in
/-- C1: for every pair `(min, max)` with `max > min` (and, for the
width-`w` wrapper, `max` within the representable range of the target
type), every value produced by `rand_range` and `generate_range` lies in
the half-open interval `[min, max)`; and in the concrete scenario with
seed `0xDEADBEEF` at width 8, every one of 100 successive
`generate_range(0xC0, 0xDE)` calls returns `r` with `0xC0 ≤ r < 0xDE`. -/
theorem C1_range_containment :
    (∀ (g : WyRand) (minv maxv : Nat), minv < maxv →
      ∃ r g', WyRand.rand_range 1 g minv maxv = some (r, g') ∧ minv ≤ r ∧ r < maxv) ∧
    (∀ (w : Nat) (g : WyRand) (minv maxv : Nat), minv < maxv → maxv ≤ 2 ^ w - 1 →
      ∃ r g', generate_range_w w 1 g minv maxv = some (r, g') ∧ minv ≤ r ∧ r < maxv) ∧
    c1ConcreteCheck = true := by
  refine ⟨fun g minv maxv hmm => rand_range_containment g hmm, ?_, ?_⟩
  · intro w g minv maxv hmm hw
    obtain ⟨r, g', heq, hr1, hr2⟩ := rand_range_containment g hmm
    refine ⟨r, g', ?_, hr1, hr2⟩
    have hrw : r < 2 ^ w := by omega
    unfold generate_range_w
    rw [heq]
    simp [hrw]
  · decide

/-- Witness for C1, instantiating the bounded part at `min = 5`, `max = 7`. -/
theorem C1_range_containment_witness :
    ∃ r g', WyRand.rand_range 1 (WyRand.new 0) 5 7 = some (r, g') ∧ 5 ≤ r ∧ r < 7 :=
  C1_range_containment.1 (WyRand.new 0) 5 7 (by norm_num)

/-- C2 (refuted, code bug): the claim says the rejection threshold is the
unsigned 64-bit value `(2^64 - max) mod max`; the code computes the
remainder in signed `i64` arithmetic, where `(-m).tmod m = 0` always, so
the threshold is `0` for every `max`.  At `max = 3` the claimed value is
`1` but the code yields `0`. -/
theorem C2_threshold_is_always_zero :
    threshold 3 = 0 ∧ (2 ^ 64 - 3) % 3 = 1 ∧
      ∀ maxv : Nat, threshold maxv = 0 :=
  ⟨threshold_eq_zero 3, by norm_num, threshold_eq_zero⟩

/-- C4: each `WyRand::rand` call is bit-for-bit the specified mixing step:
wrapping-add the constant to the counter to get `c`, form the full 128-bit
product `p` of `c` and `c XOR` the constant (the product fits in 128 bits,
so the `wrapping_mul` never wraps), and return the XOR of the high and low
64-bit halves of `p`. -/
theorem C4_rand_mixing_bit_exact (s : Nat) :
    ((s + wyconst) % 2 ^ 64) * (((s + wyconst) % 2 ^ 64) ^^^ wyconst) < 2 ^ 128 ∧
    (WyRand.rand ⟨s⟩).1 =
      ((s + wyconst) % 2 ^ 64) * (((s + wyconst) % 2 ^ 64) ^^^ wyconst) / 2 ^ 64 ^^^
        ((s + wyconst) % 2 ^ 64) * (((s + wyconst) % 2 ^ 64) ^^^ wyconst) % 2 ^ 64 ∧
    (WyRand.rand ⟨s⟩).2 = ⟨(s + wyconst) % 2 ^ 64⟩ := by
  set c : Nat := (s + wyconst) % 2 ^ 64 with hcdef
  set p : Nat := c * (c ^^^ wyconst) with hpdef
  have hc : c < 2 ^ 64 := Nat.mod_lt _ (by norm_num)
  have hx : c ^^^ wyconst < 2 ^ 64 :=
    Nat.xor_lt_two_pow hc (by norm_num [wyconst])
  have hp : p < 2 ^ 128 := by
    calc p ≤ (2 ^ 64 - 1) * (2 ^ 64 - 1) :=
          Nat.mul_le_mul (by omega) (by omega)
      _ < 2 ^ 128 := by norm_num
  refine ⟨hp, ?_, rfl⟩
  show (((p % 2 ^ 128) >>> 64) ^^^ (p % 2 ^ 128)) % 2 ^ 64 = _
  rw [Nat.mod_eq_of_lt hp, xor_mod_two_pow, high_mod_eq hp,
    Nat.shiftRight_eq_div_pow]

/-- Counterexample to C5: for `max < min` the final `clamp(min, max)` call
panics (Rust's `clamp` asserts `min <= max`), so `generate_range(5, 3)`
crashes rather than returning a value. -/
theorem C5_counterexample :
    generate_range_w 8 1 (WyRand.new 0) 5 3 = none ∧
      WyRand.rand_range 1 (WyRand.new 0) 5 3 = none := by
  decide

/-- C5 (amended): for every pair with `max == min` — including
`generate_range(x, x)` and the degenerate `max == 0` — `rand_range`
neither crashes nor hangs and returns the one fixed value `min`; but for
`max < min` the `clamp` call panics (modelled as `none`). -/
theorem C5_degenerate_bounds_amended :
    (∀ (g : WyRand) (x : Nat), ∃ g', WyRand.rand_range 1 g x x = some (x, g')) ∧
    (∀ (g : WyRand) (minv maxv : Nat), maxv < minv →
      WyRand.rand_range 1 g minv maxv = none) := by
  constructor
  · intro g x
    rw [rand_range_fuel_eq 1 (by norm_num) g x x]
    unfold u64_clamp
    rw [if_pos (le_refl x)]
    refine ⟨(WyRand.rand g).2, ?_⟩
    have hval : (if rawM (WyRand.rand g).1 x >>> 64 < x then x
        else if x < rawM (WyRand.rand g).1 x >>> 64 then x
        else rawM (WyRand.rand g).1 x >>> 64) = x := by
      split_ifs <;> omega
    rw [hval]
    rfl
  · intro g minv maxv h
    rw [rand_range_fuel_eq 1 (by norm_num) g minv maxv]
    unfold u64_clamp
    rw [if_neg (by omega)]
    rfl

/-- Witness for C5 (amended) at `x = 4` and at `(min, max) = (5, 3)`. -/
theorem C5_degenerate_bounds_amended_witness :
    (∃ g', WyRand.rand_range 1 (WyRand.new 7) 4 4 = some (4, g')) ∧
      WyRand.rand_range 1 (WyRand.new 7) 5 3 = none :=
  ⟨C5_degenerate_bounds_amended.1 (WyRand.new 7) 4,
    C5_degenerate_bounds_amended.2 (WyRand.new 7) 5 3 (by norm_num)⟩

/-- C6: for every seed state and every pair of bounds — including
`min = 0`, `max = 0` and the maximum 64-bit bound — the rejection loop of
`rand_range` exits after exactly one raw draw whenever it is given any
positive fuel, and `rand_range` returns a value (is total) whenever
`min ≤ max`. -/
theorem C6_rejection_loop_terminates :
    (∀ (f : Nat), 0 < f → ∀ (g : WyRand) (maxv : Nat),
      rand_range_loop f g maxv =
        some (rawM (WyRand.rand g).1 maxv, (WyRand.rand g).2)) ∧
    (∀ (g : WyRand) (minv maxv : Nat), minv ≤ maxv →
      ∃ out, WyRand.rand_range 1 g minv maxv = some out) := by
  refine ⟨fun f hf g maxv => rand_range_loop_of_pos f hf g maxv, ?_⟩
  intro g minv maxv h
  rw [rand_range_fuel_eq 1 (by norm_num) g minv maxv]
  unfold u64_clamp
  rw [if_pos h]
  exact ⟨_, rfl⟩

/-- Witness for C6 at fuel 1, `max = 0` and at bounds `(0, 0)` and the
64-bit maximum. -/
theorem C6_rejection_loop_terminates_witness :
    rand_range_loop 1 (WyRand.new 3) 0 =
      some (rawM (WyRand.rand (WyRand.new 3)).1 0, (WyRand.rand (WyRand.new 3)).2) ∧
    (∃ out, WyRand.rand_range 1 (WyRand.new 3) 0 0 = some out) ∧
    (∃ out, WyRand.rand_range 1 (WyRand.new 3) 0 (2 ^ 64 - 1) = some out) :=
  ⟨C6_rejection_loop_terminates.1 1 (by norm_num) (WyRand.new 3) 0,
    C6_rejection_loop_terminates.2 (WyRand.new 3) 0 0 (le_refl 0),
    C6_rejection_loop_terminates.2 (WyRand.new 3) 0 (2 ^ 64 - 1) (by norm_num)⟩

lemma c3_filter_v0 : ((Finset.range (2 ^ 64)).filter fun x =>
    threshold 3 ≤ rawM x 3 % 2 ^ 64 ∧
      u64_clamp ((rawM x 3 >>> 64) % 2 ^ 64) 0 3 = some 0)
    = Finset.range 6148914691236517206 := by
  ext x
  simp only [Finset.mem_filter, Finset.mem_range, threshold_eq_zero, Nat.zero_le,
    true_and, rawM, u64_clamp, Nat.shiftRight_eq_div_pow]
  simp only [if_true, Option.some.injEq]
  by_cases hx : x < 2 ^ 64
  · have hA : x * 3 % 2 ^ 128 = x * 3 := Nat.mod_eq_of_lt (by omega)
    rw [hA]
    have hB : x * 3 / 2 ^ 64 < 2 ^ 64 := by omega
    rw [Nat.mod_eq_of_lt hB]
    split_ifs <;> omega
  · constructor
    · rintro ⟨h1, h2⟩
      omega
    · intro h
      omega

lemma c3_filter_v2 : ((Finset.range (2 ^ 64)).filter fun x =>
    threshold 3 ≤ rawM x 3 % 2 ^ 64 ∧
      u64_clamp ((rawM x 3 >>> 64) % 2 ^ 64) 0 3 = some 2)
    = Finset.Ico 12297829382473034411 18446744073709551616 := by
  ext x
  simp only [Finset.mem_filter, Finset.mem_range, Finset.mem_Ico, threshold_eq_zero,
    Nat.zero_le, true_and, rawM, u64_clamp, Nat.shiftRight_eq_div_pow]
  simp only [if_true, Option.some.injEq]
  by_cases hx : x < 2 ^ 64
  · have hA : x * 3 % 2 ^ 128 = x * 3 := Nat.mod_eq_of_lt (by omega)
    rw [hA]
    have hB : x * 3 / 2 ^ 64 < 2 ^ 64 := by omega
    rw [Nat.mod_eq_of_lt hB]
    split_ifs <;> omega
  · constructor
    · rintro ⟨h1, h2⟩
      omega
    · intro h
      omega

lemma c3_count_v0 : acceptCount 0 3 0 = 6148914691236517206 := by
  simp only [acceptCount]
  rw [c3_filter_v0, Finset.card_range]

lemma c3_count_v2 : acceptCount 0 3 2 = 6148914691236517205 := by
  simp only [acceptCount]
  rw [c3_filter_v2, Nat.card_Ico]

/-- C3 (refuted, code bug): because the computed rejection threshold is `0`,
every one of the `2^64` raw draws is accepted, and the reduction is not
uniform: at `(min, max) = (0, 3)` the value `0` is produced by
`6148914691236517206` accepted raw draws while the value `2` is produced
by only `6148914691236517205` — the claimed equal counts fail. -/
theorem C3_reduction_not_uniform :
    acceptCount 0 3 0 = 6148914691236517206 ∧
    acceptCount 0 3 2 = 6148914691236517205 ∧
    acceptCount 0 3 0 ≠ acceptCount 0 3 2 := by
  refine ⟨c3_count_v0, c3_count_v2, ?_⟩
  rw [c3_count_v0, c3_count_v2]
  norm_num

/-- C7: for every supported width `w ∈ {8, 16, 32, 64}` and every generator
state, `generate()` returns exactly the value of the range reducer called
with `min = T::MIN = 0` and `max = T::MAX = 2^w - 1` from the same state —
the narrowing `as` cast is the identity on it — and that value lies within
the representable range of the width. -/
theorem C7_generate_equals_reducer (w : Nat)
    (hw : w = 8 ∨ w = 16 ∨ w = 32 ∨ w = 64) (g : WyRand) :
    ∃ r g', WyRand.rand_range 1 g 0 (2 ^ w - 1) = some (r, g') ∧
      generate_w w 1 g = some (r, g') ∧ r < 2 ^ w := by
  have hw1 : 1 ≤ w := by rcases hw with rfl | rfl | rfl | rfl <;> norm_num
  have hx : (0 : Nat) < 2 ^ w - 1 := by
    have h2 : (2 : Nat) ≤ 2 ^ w := by
      calc (2 : Nat) = 2 ^ 1 := rfl
        _ ≤ 2 ^ w := Nat.pow_le_pow_right (by norm_num) hw1
    omega
  obtain ⟨r, g', heq, _, hr2⟩ := rand_range_containment g hx
  have hrw : r < 2 ^ w := by omega
  refine ⟨r, g', heq, ?_, hrw⟩
  unfold generate_w
  rw [heq]
  simp only [Option.map_some']
  rw [Nat.mod_eq_of_lt hrw]

/-- Witness for C7 at width 8 from seed 0. -/
theorem C7_generate_equals_reducer_witness :
    ∃ r g', WyRand.rand_range 1 (WyRand.new 0) 0 (2 ^ 8 - 1) = some (r, g') ∧
      generate_w 8 1 (WyRand.new 0) = some (r, g') ∧ r < 2 ^ 8 :=
  C7_generate_equals_reducer 8 (Or.inl rfl) (WyRand.new 0)

/-- C8: for every width `w ∈ {8, 16, 32, 64}` and every `(min, max)` with
`min < max ≤ 2^w - 1`, the reducer's 64-bit result fits in `w` bits, so the
narrowing conversion in `generate_range` never takes the
`unwrap_or_default()` fallback: the wrapper returns the reducer's value
unchanged. -/
theorem C8_narrowing_fallback_unreachable (w : Nat)
    (_hw : w = 8 ∨ w = 16 ∨ w = 32 ∨ w = 64) (g : WyRand) (minv maxv : Nat)
    (hmm : minv < maxv) (hmax : maxv ≤ 2 ^ w - 1) :
    ∃ r g', WyRand.rand_range 1 g minv maxv = some (r, g') ∧ r < 2 ^ w ∧
      generate_range_w w 1 g minv maxv = some (r, g') := by
  obtain ⟨r, g', heq, _, hr2⟩ := rand_range_containment g hmm
  have hrw : r < 2 ^ w := by omega
  refine ⟨r, g', heq, hrw, ?_⟩
  unfold generate_range_w
  rw [heq]
  simp [hrw]

/-- Witness for C8 at width 8, bounds `(1, 5)`, seed 1. -/
theorem C8_narrowing_fallback_unreachable_witness :
    ∃ r g', WyRand.rand_range 1 (WyRand.new 1) 1 5 = some (r, g') ∧ r < 2 ^ 8 ∧
      generate_range_w 8 1 (WyRand.new 1) 1 5 = some (r, g') :=
  C8_narrowing_fallback_unreachable 8 (Or.inl rfl) (WyRand.new 1) 1 5
    (by norm_num) (by norm_num)

/-- C9: two generator instances constructed with the same seed produce
identical sequences of raw draws of any length, and identical sequences of
bounded draws for any identical sequence of bound arguments: the output
depends only on the seed and the call sequence. -/
theorem C9_same_seed_same_sequences (s1 s2 : Nat) (h : s1 = s2) :
    ∀ (n : Nat) (args : List (Nat × Nat)),
      randSeq (WyRand.new s1) n = randSeq (WyRand.new s2) n ∧
        rangeSeq 1 (WyRand.new s1) args = rangeSeq 1 (WyRand.new s2) args := by
  subst h
  exact fun n args => ⟨rfl, rfl⟩

/-- Witness for C9 at seed `0xDEADBEEF`, three raw draws and two bounded
draws. -/
theorem C9_same_seed_same_sequences_witness :
    randSeq (WyRand.new 0xDEADBEEF) 3 = randSeq (WyRand.new 0xDEADBEEF) 3 ∧
      rangeSeq 1 (WyRand.new 0xDEADBEEF) [(0, 10), (5, 9)] =
        rangeSeq 1 (WyRand.new 0xDEADBEEF) [(0, 10), (5, 9)] :=
  C9_same_seed_same_sequences 0xDEADBEEF 0xDEADBEEF rfl 3 [(0, 10), (5, 9)]

/-- C10: for every supported width `w ∈ {8, 16, 32, 64}` and every generator
state, `generate()` never returns the width's top value `2^w - 1`: the
accepted candidate is strictly below the half-open bound `max = T::MAX`. -/
theorem C10_generate_never_hits_top (w : Nat)
    (hw : w = 8 ∨ w = 16 ∨ w = 32 ∨ w = 64) (g : WyRand) :
    ∃ r g', generate_w w 1 g = some (r, g') ∧ r < 2 ^ w - 1 ∧ r ≠ 2 ^ w - 1 := by
  have hw1 : 1 ≤ w := by rcases hw with rfl | rfl | rfl | rfl <;> norm_num
  have hx : (0 : Nat) < 2 ^ w - 1 := by
    have h2 : (2 : Nat) ≤ 2 ^ w := by
      calc (2 : Nat) = 2 ^ 1 := rfl
        _ ≤ 2 ^ w := Nat.pow_le_pow_right (by norm_num) hw1
    omega
  obtain ⟨r, g', heq, _, hr2⟩ := rand_range_containment g hx
  have hrw : r < 2 ^ w := by omega
  refine ⟨r, g', ?_, hr2, by omega⟩
  unfold generate_w
  rw [heq]
  simp only [Option.map_some']
  rw [Nat.mod_eq_of_lt hrw]

/-- Witness for C10 at width 8 from seed 5. -/
theorem C10_generate_never_hits_top_witness :
    ∃ r g', generate_w 8 1 (WyRand.new 5) = some (r, g') ∧ r < 2 ^ 8 - 1 ∧
      r ≠ 2 ^ 8 - 1 :=
  C10_generate_never_hits_top 8 (Or.inl rfl) (WyRand.new 5)
